import Mathlib

/-!
Verification of the AutomaticIssue triage bot against its design notes.

The Python modules `issue_checks.py` and `assignees.py` are embedded
shallowly: GitHub issues (JSON dictionaries with optional keys) become a
structure of `Option` fields, the `rapidfuzz` similarity scorers and
`random.sample` are abstract parameters (they are external libraries), and
the HTTP search outcome is passed in as a parameter (`none` models a
request failure that the code catches).
-/

namespace AutoIssue

def isPySpace (c : Char) : Bool :=
  c == ' ' || c == '\t' || c == '\n' || c == '\r' || c == '\x0b' || c == '\x0c'

def isLineBreak (c : Char) : Bool :=
  c == '\n' || c == '\r' || c == '\x0b' || c == '\x0c' || c == '\x1c' ||
  c == '\x1d' || c == '\x1e' || c == '\x85' || c == '\u2028' || c == '\u2029'

def isWordChar (c : Char) : Bool :=
  (97 ≤ c.toNat && c.toNat ≤ 122) || (65 ≤ c.toNat && c.toNat ≤ 90) ||
  (48 ≤ c.toNat && c.toNat ≤ 57) || c == '_'

def splitlinesAux : List Char → List Char → List (List Char)
  | [], acc => if acc.isEmpty then [] else [acc]
  | '\r' :: '\n' :: rest, acc => acc :: splitlinesAux rest []
  | c :: rest, acc =>
    if isLineBreak c then acc :: splitlinesAux rest []
    else splitlinesAux rest (acc ++ [c])

def splitlines (l : List Char) : List (List Char) := splitlinesAux l []

def pyStrip (l : List Char) : List Char :=
  (l.dropWhile isPySpace).rdropWhile isPySpace

def findClose : List Char → Option (List Char)
  | '\x60' :: '\x60' :: '\x60' :: rest => some rest
  | _ :: rest => findClose rest
  | [] => none

def stripTicks : List Char → List Char
  | '\x60' :: '\x60' :: '\x60' :: rest =>
    match _h : findClose rest with
    | some rest2 => stripTicks rest2
    | none => '\x60' :: '\x60' :: '\x60' :: rest
  | c :: rest => c :: stripTicks rest
  | [] => []
termination_by l => l.length
decreasing_by
  · have H : ∀ (l l' : List Char), findClose l = some l' →
        l'.length + 3 ≤ l.length := by
      intro l
      induction l using findClose.induct with
      | case1 r =>
        intro l' h1
        rw [findClose] at h1
        cases h1
        simp
      | case2 c r hne ih =>
        intro l' h1
        rw [findClose.eq_def] at h1
        split at h1
        · rename_i rest heq
          injection heq with h2 h3
          exact (hne rest h2 h3).elim
        · rename_i x rest2 heq
          injection heq with h2 h3
          subst h3
          have := ih l' h1
          simp only [List.length_cons]
          omega
        · cases h1
      | case3 =>
        intro l' h1
        rw [findClose] at h1
        cases h1
    have := H _ _ _h
    simp only [List.length_cons]
    omega
  · simp only [List.length_cons]
    omega

def stripUrls : List Char → List Char
  | 'h' :: 't' :: 't' :: 'p' :: c :: rest =>
    if isPySpace c then 'h' :: 't' :: 't' :: 'p' :: stripUrls (c :: rest)
    else stripUrls (rest.dropWhile (fun x => !isPySpace x))
  | c :: rest => c :: stripUrls rest
  | [] => []
termination_by l => l.length
decreasing_by
  · simp only [List.length_cons]
    omega
  · have := (List.dropWhile_suffix (l := rest)
      (fun x => !isPySpace x)).length_le
    simp only [List.length_cons]
    omega
  · simp only [List.length_cons]
    omega

def collapseNonWord : List Char → List Char
  | [] => []
  | c :: rest =>
    if isWordChar c then c :: collapseNonWord rest
    else ' ' :: collapseNonWord (rest.dropWhile (fun x => !isWordChar x))
termination_by l => l.length
decreasing_by
  · simp only [List.length_cons]
    omega
  · have := (List.dropWhile_suffix (l := rest)
      (fun x => !isWordChar x)).length_le
    simp only [List.length_cons]
    omega

def normalizeChars (issue_body : List Char) : List Char :=
  let lines := ((splitlines issue_body).map pyStrip).filter
    (fun line => !(line.isEmpty || "<!--".data.isPrefixOf line ||
      "###".data.isPrefixOf line || "```".data.isPrefixOf line))
  let text := (List.intercalate [' '] lines).map Char.toLower
  pyStrip (collapseNonWord (stripUrls (stripTicks text)))

def normalize (s : String) : String := ⟨normalizeChars s.data⟩

/-- No two adjacent spaces occur anywhere in `l`. -/
def NoTwoSpaces (l : List Char) : Prop := ¬ [' ', ' '] <:+: l

/-- Every occurrence of `http` in `l` is followed by a whitespace
character (so the regex `http\S+` has no match). -/
def HttpOk (l : List Char) : Prop :=
  ∀ c rest, ('h' :: 't' :: 't' :: 'p' :: c :: rest) <:+ l → isPySpace c = true

/-- The shape of `normalizeChars`' output: lowered word characters and
single separating spaces, no whitespace at either end, and no matchable
`http` occurrence. -/
def GoodOut (l : List Char) : Prop :=
  (∀ c ∈ l, (isWordChar c = true ∧ c.toLower = c) ∨ c = ' ') ∧
  NoTwoSpaces l ∧
  l.dropWhile isPySpace = l ∧
  l.rdropWhile isPySpace = l ∧
  HttpOk l

/-- A GitHub issue as the Python code consumes it: a dictionary whose keys
may be absent.  For `title`, `number`, `labels` and `state`, `none` models
an absent or `null` key: everywhere the code reads them, `null` behaves
exactly like the absent-key default (it is falsy, compares unequal to
`"open"`, or raises into the same catch-all).  The `body` field is the one
read where absent and `null` diverge — `issue.get("body", "")` defaults an
absent key to `""` but passes a `null` through as `None`, which
`normalize` cannot take — so it is kept three-valued: `none` is an absent
key, `some none` a `null` value, `some (some s)` the string `s`. -/
structure PyIssue where
  title : Option String := none
  number : Option Int := none
  body : Option (Option String) := none
  labels : Option (List String) := none
  state : Option String := none
deriving DecidableEq

/-- The value of Python's `issue.get("body", "")`: an absent key defaults
to `""`, a key holding `null` yields `None` (here `none`), and a string is
returned unchanged. -/
def PyIssue.bodyGet (i : PyIssue) : Option String :=
  match i.body with
  | none => some ""
  | some none => none
  | some (some s) => some s

/-- Substring containment, Python's `sub in s` on strings (here on
character lists). -/
def containsSub (sub l : List Char) : Bool :=
  (List.range (l.length + 1)).any (fun i => sub.isPrefixOf (l.drop i))

/-- Model of `check_template` from `issue_checks.py`: returns `False` when the body
lacks the `<!-- TEMPLATE` marker and the label list is falsy; any exception
(e.g. `issue["body"]` on a missing/None body, or `issue["labels"]` missing)
is caught and turned into `False`. -/
def check_template (issue : PyIssue) : Bool :=
  match issue.body with
  | some (some b) =>
    if containsSub "<!-- TEMPLATE".data b.data then true
    else
      match issue.labels with
      | none => false
      | some ls => !ls.isEmpty
  | _ => false

end AutoIssue

namespace AutoIssue

/-- One step of the result-scanning loop in `check_duplicate`
(`issue_checks.py`, lines 136-160).  `ts`/`bs` are the abstract
`fuzz.token_set_ratio` / `fuzz.partial_ratio` scorers, `t` the subject title, `b` the subject body, `num` the subject
number, `th` the threshold; the accumulator holds the open and closed
duplicate lists in append order. -/
def dupStep (ts bs : String → String → ℚ)
    (t : String) (b : Option String) (num : Int) (th : ℚ)
    (acc : List PyIssue × List PyIssue) (result : PyIssue) :
    Except String (List PyIssue × List PyIssue) :=
  if result.number.getD 0 = num then Except.ok acc
  else
    let title_score := ts t (result.title.getD "")
    if title_score < 66 then Except.ok acc
    else
      match b, result.bodyGet with
      | some sb, some rb =>
        let body_score := bs (normalize sb) (normalize rb)
        let overall_score := 0.7 * title_score + 0.3 * body_score
        Except.ok
          (if th ≤ overall_score then
            if result.state.getD "" = "open" then (acc.1 ++ [result], acc.2)
            else (acc.1, acc.2 ++ [result])
          else acc)
      | _, _ =>
        Except.error
          "AttributeError: NoneType object has no attribute splitlines"

/-- Model of `check_duplicate` from `issue_checks.py`.  The search call is modelled
by `searchResult`: `none` is a failed request (timeout or request
exception, caught by the code), `some results` the parsed `items` list.
The two `raise ValueError` sites become `Except.error`, and so does the
`AttributeError` that `normalize(None)` raises when the body-scoring step
is reached with a `null` subject or candidate body: that call sits outside
the `try` that only wraps the HTTP request, so it propagates, aborting the
scan at the first candidate that reaches it. -/
def check_duplicate (ts bs : String → String → ℚ)
    (issue : PyIssue) (th : ℚ) (searchResult : Option (List PyIssue)) :
    Except String (List PyIssue × List PyIssue) :=
  let issue_title := issue.title.getD ""
  if issue_title = "" then Except.error "ERROR: Issue title is missing."
  else
    let issue_number := issue.number.getD 0
    if issue_number = 0 then Except.error "ERROR: Issue number is missing."
    else
      match searchResult with
      | none => Except.ok ([], [])
      | some results =>
          results.foldlM
            (dupStep ts bs issue_title issue.bodyGet issue_number th)
            ([], [])

/-- Whether a search result gets past the two cheap filters of the
scanning loop and reaches the body-scoring step: not the subject itself,
and title score at least 66. -/
def dupGate (ts : String → String → ℚ) (t : String) (num : Int)
    (r : PyIssue) : Bool :=
  decide (¬ r.number.getD 0 = num) &&
  decide (¬ ts t (r.title.getD "") < 66)

/-- Whether a search result survives the scanning loop of
`check_duplicate`: it reaches the body-scoring step and the weighted
overall score reaches the threshold. -/
def dupKeep (ts bs : String → String → ℚ)
    (t : String) (b : Option String) (num : Int) (th : ℚ)
    (r : PyIssue) : Bool :=
  dupGate ts t num r &&
  decide (th ≤ 0.7 * ts t (r.title.getD "") +
    0.3 * bs (normalize (b.getD "")) (normalize (r.bodyGet.getD "")))

/-- Model of `check_assignees` from `assignees.py`.  `contributors` is the login
list returned by `get_contributors` (an empty list also models a failed
fetch, which the code turns into `[]`), `isAssignable` the outcome of the
per-login HTTP 204 probe (a request failure is `false`: the code skips the
contributor), and `sample` the abstract `random.sample`. -/
def check_assignees (sample : List String → ℕ → List String)
    (isAssignable : String → Bool) (contributors : List String) (k : ℕ) :
    List String :=
  if contributors.isEmpty then []
  else
    let assignees := contributors.filter isAssignable
    if assignees.length < k then assignees
    else sample assignees k

/-- Taking the first n elements is a degenerate but valid sampler, used to instantiate the
abstract `random.sample` in witnesses. -/
def takeSample (l : List String) (n : ℕ) : List String := l.take n

/-- Title scorer used in witnesses: constant 100. -/
def wTS : String → String → ℚ := fun _ _ => 100

/-- Body scorer used in witnesses: constant 50. -/
def wBS : String → String → ℚ := fun _ _ => 50

/-- Title scorer used in witnesses: constant 50, below the hard floor. -/
def wTSlow : String → String → ℚ := fun _ _ => 50

/-- Subject issue used in witnesses. -/
def wIssue : PyIssue :=
  { title := some "App crashes on load", number := some 3,
    body := some (some "") }

/-- Open candidate used in witnesses. -/
def wCand : PyIssue :=
  { title := some "Crashes on load", number := some 7,
    body := some (some ""), state := some "open" }

/-- Issue with a template marker in its body, used in witnesses. -/
def wTemplIssue : PyIssue :=
  { body := some (some "Hi <!-- TEMPLATE -->"), labels := some [] }

/-- Issue with no body but one label, used in witnesses. -/
def wNoBodyIssue : PyIssue := { labels := some ["bug"] }

/-- Issue with a valid title and number but a `null` body, used in the C5
counterexample. -/
def wNullIssue : PyIssue :=
  { title := some "App crashes on load", number := some 3,
    body := some none }

theorem toNat_ofNat_small (n : Nat) (h : n < 55296) :
    (Char.ofNat n).toNat = n := by
  rw [Char.ofNat, dif_pos (Or.inl h)]
  simp [Char.ofNatAux, Char.toNat, UInt32.ofNat', UInt32.toNat]

theorem toLower_idem (c : Char) : c.toLower.toLower = c.toLower := by
  by_cases h : 65 ≤ c.toNat ∧ c.toNat ≤ 90
  · have h1 : c.toLower = Char.ofNat (c.toNat + 32) := by
      rw [Char.toLower, if_pos (by omega)]
    have h2 : (Char.ofNat (c.toNat + 32)).toNat = c.toNat + 32 :=
      toNat_ofNat_small _ (by omega)
    rw [h1, Char.toLower, h2, if_neg (by omega)]
  · have h1 : c.toLower = c := by rw [Char.toLower, if_neg (by omega)]
    rw [h1, h1]

theorem pySpace_eq (c : Char) (h : isPySpace c = true) :
    c = ' ' ∨ c = '\t' ∨ c = '\n' ∨ c = '\r' ∨ c = '\x0b' ∨ c = '\x0c' := by
  simpa [isPySpace, or_assoc] using h

theorem pySpace_not_word (c : Char) (h : isPySpace c = true) :
    isWordChar c = false := by
  rcases pySpace_eq c h with h | h | h | h | h | h <;> subst h <;> decide

theorem word_not_pySpace (c : Char) (h : isWordChar c = true) :
    isPySpace c = false := by
  cases hs : isPySpace c with
  | false => rfl
  | true => rw [pySpace_not_word c hs] at h; cases h

theorem lineBreak_eq (c : Char) (h : isLineBreak c = true) :
    c = '\n' ∨ c = '\r' ∨ c = '\x0b' ∨ c = '\x0c' ∨ c = '\x1c' ∨
    c = '\x1d' ∨ c = '\x1e' ∨ c = '\x85' ∨ c = '\u2028' ∨ c = '\u2029' := by
  simpa [isLineBreak, or_assoc] using h

theorem lineBreak_not_word (c : Char) (h : isLineBreak c = true) :
    isWordChar c = false := by
  rcases lineBreak_eq c h with h|h|h|h|h|h|h|h|h|h <;> subst h <;> decide

theorem word_not_lineBreak (c : Char) (h : isWordChar c = true) :
    isLineBreak c = false := by
  cases hs : isLineBreak c with
  | false => rfl
  | true => rw [lineBreak_not_word c hs] at h; cases h

-- splitlines ------------------------------------------------------------

set_option maxHeartbeats 2000000 in
theorem splitlinesAux_no_break : ∀ (l acc : List Char),
    (∀ c ∈ l, isLineBreak c = false) →
    splitlinesAux l acc = if (acc ++ l).isEmpty then [] else [acc ++ l] := by
  intro l acc
  induction l, acc using splitlinesAux.induct with
  | case1 acc hacc =>
    intro _
    rw [splitlinesAux, if_pos hacc, List.append_nil, if_pos hacc]
  | case2 acc hacc =>
    intro _
    rw [splitlinesAux, if_neg hacc, List.append_nil, if_neg hacc]
  | case3 rest acc ih =>
    intro h
    have := h '\r' (by simp)
    simp [isLineBreak] at this
  | case4 c rest acc hne hbr ih =>
    intro h
    have := h c (by simp)
    rw [hbr] at this
    cases this
  | case5 c rest acc hne hbr ih =>
    intro h
    have heq : splitlinesAux (c :: rest) acc =
        splitlinesAux rest (acc ++ [c]) := by
      rw [splitlinesAux.eq_def]
      split
      · rename_i heq'
        cases heq'
      · rename_i rest1 heq'
        injection heq' with e1 e2
        exact (hne rest1 e1 e2).elim
      · rename_i x rest2 heq'
        injection heq' with e1 e2
        subst e1
        subst e2
        rw [if_neg hbr]
    rw [heq, ih (fun d hd => h d (List.mem_cons_of_mem _ hd))]
    have : acc ++ [c] ++ rest = acc ++ c :: rest := by simp
    rw [this]

theorem splitlines_no_break (l : List Char)
    (h : ∀ c ∈ l, isLineBreak c = false) :
    splitlines l = if l.isEmpty then [] else [l] := by
  rw [splitlines, splitlinesAux_no_break l [] h]
  simp

-- pyStrip ---------------------------------------------------------------

theorem dropWhile_eq_self_of_isPrefix {p : Char → Bool} {l₁ l₂ : List Char}
    (hp : l₁ <+: l₂) (h : l₂.dropWhile p = l₂) : l₁.dropWhile p = l₁ := by
  cases l₁ with
  | nil => rfl
  | cons c t =>
    obtain ⟨r, hr⟩ := hp
    have hc : p c = false := by
      rw [← hr, List.cons_append, List.dropWhile_cons] at h
      by_cases hpc : p c = true
      · rw [if_pos hpc] at h
        have hlen := congrArg List.length h
        have hle := (List.dropWhile_suffix (l := t ++ r) p).length_le
        simp only [List.length_cons] at hlen
        omega
      · simpa using hpc
    rw [List.dropWhile_cons, if_neg (by simp [hc])]

theorem dropWhile_head_false {p : Char → Bool} {l r : List Char} {e : Char}
    (h : l.dropWhile p = e :: r) : p e = false := by
  induction l with
  | nil => cases h
  | cons a t ih =>
    rw [List.dropWhile_cons] at h
    by_cases hp : p a = true
    · rw [if_pos hp] at h
      exact ih h
    · rw [if_neg (by simpa using hp)] at h
      injection h with e1 _
      subst e1
      simpa using hp

theorem pyStrip_eq_self {l : List Char} (h1 : l.dropWhile isPySpace = l)
    (h2 : l.rdropWhile isPySpace = l) : pyStrip l = l := by
  rw [pyStrip, h1, h2]

theorem pyStrip_isPrefix (l : List Char) :
    pyStrip l <+: l.dropWhile isPySpace :=
  List.rdropWhile_prefix isPySpace (l.dropWhile isPySpace)

theorem pyStrip_isInfix (l : List Char) : pyStrip l <:+: l :=
  (pyStrip_isPrefix l).isInfix.trans (List.dropWhile_suffix _).isInfix

theorem pyStrip_dropWhile (l : List Char) :
    (pyStrip l).dropWhile isPySpace = pyStrip l :=
  dropWhile_eq_self_of_isPrefix (pyStrip_isPrefix l)
    (List.dropWhile_idempotent isPySpace l)

theorem pyStrip_rdropWhile (l : List Char) :
    (pyStrip l).rdropWhile isPySpace = pyStrip l :=
  List.rdropWhile_idempotent isPySpace (l.dropWhile isPySpace)

-- infix closure ---------------------------------------------------------

theorem noTwoSpaces_of_isInfix {l₁ l₂ : List Char} (h : l₁ <:+: l₂)
    (h2 : NoTwoSpaces l₂) : NoTwoSpaces l₁ :=
  fun hcon => h2 (hcon.trans h)

theorem httpOk_of_isInfix {l₁ l₂ : List Char} (h : l₁ <:+: l₂)
    (h2 : HttpOk l₂) : HttpOk l₁ := by
  intro c rest hs
  obtain ⟨u, v, rfl⟩ := h
  obtain ⟨w, rfl⟩ := hs
  apply h2 c (rest ++ v)
  refine ⟨u ++ w, ?_⟩
  simp

theorem httpOk_of_suffix {l₁ l₂ : List Char} (h : l₁ <:+ l₂)
    (h2 : HttpOk l₂) : HttpOk l₁ :=
  httpOk_of_isInfix h.isInfix h2

-- stripTicks ------------------------------------------------------------

set_option maxHeartbeats 1000000 in
theorem findClose_suffix : ∀ (l l' : List Char), findClose l = some l' →
    l' <:+ l := by
  intro l
  induction l using findClose.induct with
  | case1 r =>
    intro l' h1
    rw [findClose] at h1
    injection h1 with h1
    subst h1
    exact ⟨['\x60', '\x60', '\x60'], rfl⟩
  | case2 c r hne ih =>
    intro l' h1
    rw [findClose.eq_def] at h1
    split at h1
    · rename_i rest heq
      injection heq with e1 e2
      exact (hne rest e1 e2).elim
    · rename_i x rest2 heq
      injection heq with e1 e2
      subst e2
      exact (ih l' h1).trans (List.suffix_cons c r)
    · cases h1
  | case3 =>
    intro l' h1
    rw [findClose] at h1
    cases h1

set_option maxHeartbeats 1000000 in
theorem stripTicks_nil : stripTicks [] = [] := by
  rw [stripTicks.eq_def]

theorem stripTicks_tick_some {rest rest2 : List Char}
    (h : findClose rest = some rest2) :
    stripTicks ('\x60' :: '\x60' :: '\x60' :: rest) = stripTicks rest2 := by
  rw [stripTicks.eq_1]
  split
  · rename_i r2 hr2
    rw [h] at hr2
    injection hr2 with e
    rw [e]
  · rename_i hr
    rw [h] at hr
    cases hr

theorem stripTicks_tick_none {rest : List Char}
    (h : findClose rest = none) :
    stripTicks ('\x60' :: '\x60' :: '\x60' :: rest) = '\x60' :: '\x60' :: '\x60' :: rest := by
  rw [stripTicks.eq_1]
  split
  · rename_i r2 hr2
    rw [h] at hr2
    cases hr2
  · rfl

theorem stripTicks_cons {c : Char} {rest : List Char}
    (hne : ∀ (c1 : Char) (r1 : List Char), c = '\x60' → rest = '\x60' :: '\x60' :: r1 →
      False) :
    stripTicks (c :: rest) = c :: stripTicks rest := by
  rw [stripTicks.eq_def]
  split
  · rename_i r1 heq
    injection heq with e1 e2
    exact (hne '\x60' r1 e1 e2).elim
  · rename_i x r heq
    injection heq with e1 e2
    subst e1
    subst e2
    rfl
  · rename_i heq
    cases heq

theorem stripTicks_subset : ∀ (l : List Char), ∀ c ∈ stripTicks l, c ∈ l := by
  intro l
  induction l using stripTicks.induct with
  | case1 rest rest2 hfc ih =>
    intro c hc
    rw [stripTicks_tick_some hfc] at hc
    have hmem := (findClose_suffix rest rest2 hfc).subset (ih c hc)
    exact List.mem_cons_of_mem _ (List.mem_cons_of_mem _
      (List.mem_cons_of_mem _ hmem))
  | case2 rest hfc =>
    intro c hc
    rw [stripTicks_tick_none hfc] at hc
    exact hc
  | case3 c rest hne ih =>
    intro d hd
    rw [stripTicks_cons (fun c1 r1 e1 e2 => hne r1 e1 e2)] at hd
    rcases List.mem_cons.mp hd with e | hd
    · exact e ▸ List.mem_cons_self _ _
    · exact List.mem_cons_of_mem _ (ih d hd)
  | case4 =>
    intro c hc
    rw [stripTicks_nil] at hc
    cases hc

theorem stripTicks_id : ∀ (l : List Char), ¬ '\x60' ∈ l → stripTicks l = l := by
  intro l
  induction l using stripTicks.induct with
  | case1 rest rest2 hfc ih =>
    intro h
    exact absurd (List.mem_cons_self _ _) h
  | case2 rest hfc =>
    intro h
    exact stripTicks_tick_none hfc
  | case3 c rest hne ih =>
    intro h
    rw [stripTicks_cons (fun c1 r1 e1 e2 => hne r1 e1 e2),
      ih (fun hm => h (List.mem_cons_of_mem _ hm))]
  | case4 =>
    intro _
    exact stripTicks_nil

-- stripUrls -------------------------------------------------------------

set_option maxHeartbeats 1000000 in
theorem stripUrls_nil : stripUrls [] = [] := by
  rw [stripUrls.eq_def]

theorem stripUrls_http_space {c : Char} {rest : List Char}
    (h : isPySpace c = true) :
    stripUrls ('h' :: 't' :: 't' :: 'p' :: c :: rest) =
      'h' :: 't' :: 't' :: 'p' :: stripUrls (c :: rest) := by
  rw [stripUrls.eq_1, if_pos h]

theorem stripUrls_http_nonspace {c : Char} {rest : List Char}
    (h : isPySpace c = false) :
    stripUrls ('h' :: 't' :: 't' :: 'p' :: c :: rest) =
      stripUrls (rest.dropWhile (fun x => !isPySpace x)) := by
  rw [stripUrls.eq_1, if_neg (by simp [h])]

theorem stripUrls_cons {c : Char} {rest : List Char}
    (hne : ∀ (c1 : Char) (r1 : List Char), c = 'h' →
      rest = 't' :: 't' :: 'p' :: c1 :: r1 → False) :
    stripUrls (c :: rest) = c :: stripUrls rest := by
  rw [stripUrls.eq_def]
  split
  · rename_i c1 r1 heq
    injection heq with e1 e2
    exact (hne c1 r1 e1 e2).elim
  · rename_i x r heq
    injection heq with e1 e2
    subst e1
    subst e2
    rfl
  · rename_i heq
    cases heq

theorem stripUrls_subset : ∀ (l : List Char), ∀ c ∈ stripUrls l, c ∈ l := by
  intro l
  induction l using stripUrls.induct with
  | case1 c rest hsp ih =>
    intro d hd
    rw [stripUrls_http_space hsp] at hd
    rcases List.mem_cons.mp hd with e | hd
    · exact e ▸ List.mem_cons_self _ _
    rcases List.mem_cons.mp hd with e | hd
    · exact e ▸ List.mem_cons_of_mem _ (List.mem_cons_self _ _)
    rcases List.mem_cons.mp hd with e | hd
    · exact e ▸ List.mem_cons_of_mem _ (List.mem_cons_of_mem _
        (List.mem_cons_self _ _))
    rcases List.mem_cons.mp hd with e | hd
    · exact e ▸ List.mem_cons_of_mem _ (List.mem_cons_of_mem _
        (List.mem_cons_of_mem _ (List.mem_cons_self _ _)))
    · exact List.mem_cons_of_mem _ (List.mem_cons_of_mem _
        (List.mem_cons_of_mem _ (List.mem_cons_of_mem _ (ih d hd))))
  | case2 c rest hsp ih =>
    intro d hd
    rw [stripUrls_http_nonspace (by simpa using hsp)] at hd
    have hmem := List.dropWhile_subset _ (ih d hd)
    exact List.mem_cons_of_mem _ (List.mem_cons_of_mem _
      (List.mem_cons_of_mem _ (List.mem_cons_of_mem _
        (List.mem_cons_of_mem _ hmem))))
  | case3 c rest hne ih =>
    intro d hd
    rw [stripUrls_cons hne] at hd
    rcases List.mem_cons.mp hd with e | hd
    · exact e ▸ List.mem_cons_self _ _
    · exact List.mem_cons_of_mem _ (ih d hd)
  | case4 =>
    intro d hd
    rw [stripUrls_nil] at hd
    cases hd

theorem stripUrls_head : ∀ (m : List Char) (d : Char),
    (stripUrls m).head? = some d → isPySpace d = false → m.head? = some d := by
  intro m
  induction m using stripUrls.induct with
  | case1 c rest hsp ih =>
    intro d hd _
    rw [stripUrls_http_space hsp] at hd
    injection hd with e
    rw [← e]
    rfl
  | case2 c rest hsp ih =>
    intro d hd hdsp
    rw [stripUrls_http_nonspace (by simpa using hsp)] at hd
    have hm2 := ih d hd hdsp
    cases hdw : rest.dropWhile (fun x => !isPySpace x) with
    | nil =>
      rw [hdw] at hm2
      cases hm2
    | cons e t =>
      rw [hdw] at hm2
      injection hm2 with e2
      have hpe := dropWhile_head_false hdw
      simp only [Bool.not_eq_false'] at hpe
      rw [e2] at hpe
      rw [hpe] at hdsp
      cases hdsp
  | case3 c rest hne ih =>
    intro d hd _
    rw [stripUrls_cons hne] at hd
    injection hd with e
    rw [← e]
    rfl
  | case4 =>
    intro d hd _
    rw [stripUrls_nil] at hd
    cases hd

theorem stripUrls_cons_inv {m X : List Char} {a : Char}
    (ha : a ≠ 'h') (hsp : isPySpace a = false)
    (h : stripUrls m = a :: X) : ∃ m', m = a :: m' ∧ stripUrls m' = X := by
  have hh : m.head? = some a := stripUrls_head m a (by rw [h]; rfl) hsp
  cases m with
  | nil => cases hh
  | cons b t =>
    injection hh with e
    subst e
    have hc : stripUrls (b :: t) = b :: stripUrls t :=
      stripUrls_cons (fun c1 r1 e1 _ => ha e1)
    rw [hc] at h
    injection h with _ e2
    exact ⟨t, rfl, e2⟩

theorem stripUrls_httpOk : ∀ (m : List Char), HttpOk (stripUrls m) := by
  intro m
  induction m using stripUrls.induct with
  | case1 c rest hsp ih =>
    rw [stripUrls_http_space hsp]
    intro c' rest' hs
    rcases List.suffix_cons_iff.mp hs with heq | hs
    · injection heq with _ heq
      injection heq with _ heq
      injection heq with _ heq
      injection heq with _ heq
      have hcr : stripUrls (c :: rest) = c :: stripUrls rest := by
        apply stripUrls_cons
        intro c1 r1 e1 _
        rw [e1] at hsp
        exact absurd hsp (by decide)
      rw [hcr] at heq
      injection heq with e1 _
      rw [e1]
      exact hsp
    · rcases List.suffix_cons_iff.mp hs with heq | hs
      · injection heq with e _
        exact absurd e (by decide)
      · rcases List.suffix_cons_iff.mp hs with heq | hs
        · injection heq with e _
          exact absurd e (by decide)
        · rcases List.suffix_cons_iff.mp hs with heq | hs
          · injection heq with e _
            exact absurd e (by decide)
          · exact ih c' rest' hs
  | case2 c rest hsp ih =>
    rw [stripUrls_http_nonspace (by simpa using hsp)]
    exact ih
  | case3 c rest hne ih =>
    rw [stripUrls_cons hne]
    intro c' rest' hs
    rcases List.suffix_cons_iff.mp hs with heq | hs
    · injection heq with e1 heq
      by_cases hc' : isPySpace c' = true
      · exact hc'
      · exfalso
        obtain ⟨r1, hr1, hs1⟩ := stripUrls_cons_inv (by decide) (by decide)
          heq.symm
        obtain ⟨r2, hr2, hs2⟩ := stripUrls_cons_inv (by decide) (by decide)
          hs1
        obtain ⟨r3, hr3, hs3⟩ := stripUrls_cons_inv (by decide) (by decide)
          hs2
        have hh3 : r3.head? = some c' :=
          stripUrls_head r3 c' (by rw [hs3]; rfl) (by simpa using hc')
        obtain ⟨r4, hr4⟩ : ∃ r4, r3 = c' :: r4 := by
          cases r3 with
          | nil => cases hh3
          | cons b t =>
            injection hh3 with e
            exact ⟨t, by rw [e]⟩
        refine hne c' r4 e1.symm ?_
        rw [hr1, hr2, hr3, hr4]
    · exact ih c' rest' hs
  | case4 =>
    rw [stripUrls_nil]
    intro c' rest' hs
    cases List.suffix_nil.mp hs

theorem stripUrls_id : ∀ (m : List Char), HttpOk m → stripUrls m = m := by
  intro m
  induction m using stripUrls.induct with
  | case1 c rest hsp ih =>
    intro hm
    rw [stripUrls_http_space hsp,
      ih (httpOk_of_suffix ⟨['h', 't', 't', 'p'], rfl⟩ hm)]
  | case2 c rest hsp ih =>
    intro hm
    exact absurd (hm c rest (List.suffix_refl _)) hsp
  | case3 c rest hne ih =>
    intro hm
    rw [stripUrls_cons hne,
      ih (httpOk_of_suffix (List.suffix_cons c rest) hm)]
  | case4 =>
    intro _
    exact stripUrls_nil

theorem stripUrls_id_no_h : ∀ (m : List Char), ¬ 'h' ∈ m →
    stripUrls m = m := by
  intro m
  induction m using stripUrls.induct with
  | case1 c rest hsp ih =>
    intro h
    exact absurd (List.mem_cons_self _ _) h
  | case2 c rest hsp ih =>
    intro h
    exact absurd (List.mem_cons_self _ _) h
  | case3 c rest hne ih =>
    intro h
    rw [stripUrls_cons hne, ih (fun hm => h (List.mem_cons_of_mem _ hm))]
  | case4 =>
    intro _
    exact stripUrls_nil

-- collapseNonWord -------------------------------------------------------

set_option maxHeartbeats 1000000 in
theorem collapse_nil : collapseNonWord [] = [] := by
  rw [collapseNonWord.eq_def]

theorem collapse_cons_word {c : Char} {rest : List Char}
    (h : isWordChar c = true) :
    collapseNonWord (c :: rest) = c :: collapseNonWord rest := by
  rw [collapseNonWord.eq_2, if_pos h]

theorem collapse_cons_nonword {c : Char} {rest : List Char}
    (h : isWordChar c = false) :
    collapseNonWord (c :: rest) =
      ' ' :: collapseNonWord (rest.dropWhile (fun x => !isWordChar x)) := by
  rw [collapseNonWord.eq_2, if_neg (by simp [h])]

theorem collapse_chars : ∀ (l : List Char), ∀ c ∈ collapseNonWord l,
    (isWordChar c = true ∧ c ∈ l) ∨ c = ' ' := by
  intro l
  induction l using collapseNonWord.induct with
  | case1 =>
    intro c hc
    rw [collapse_nil] at hc
    cases hc
  | case2 c rest hw ih =>
    intro d hd
    rw [collapse_cons_word hw] at hd
    rcases List.mem_cons.mp hd with e | hd
    · subst e
      exact Or.inl ⟨hw, List.mem_cons_self _ _⟩
    · rcases ih d hd with ⟨hdw, hdm⟩ | hsp
      · exact Or.inl ⟨hdw, List.mem_cons_of_mem _ hdm⟩
      · exact Or.inr hsp
  | case3 c rest hw ih =>
    intro d hd
    rw [collapse_cons_nonword (by simpa using hw)] at hd
    rcases List.mem_cons.mp hd with e | hd
    · exact Or.inr e
    · rcases ih d hd with ⟨hdw, hdm⟩ | hsp
      · exact Or.inl ⟨hdw, List.mem_cons_of_mem _
          (List.dropWhile_subset _ hdm)⟩
      · exact Or.inr hsp

theorem collapse_word_isPrefix : ∀ (m : List Char), ∀ (w Y : List Char),
    (∀ c ∈ w, isWordChar c = true) → collapseNonWord m = w ++ Y →
    w <+: m := by
  intro m
  induction m using collapseNonWord.induct with
  | case1 =>
    intro w Y hw h
    rw [collapse_nil] at h
    obtain ⟨hw0, _⟩ := List.append_eq_nil.mp h.symm
    subst hw0
    exact List.nil_prefix
  | case2 c rest hcw ih =>
    intro w Y hw h
    rw [collapse_cons_word hcw] at h
    cases w with
    | nil => exact List.nil_prefix
    | cons a w' =>
      rw [List.cons_append] at h
      injection h with e1 e2
      subst e1
      exact List.cons_prefix_cons.mpr ⟨rfl,
        ih w' Y (fun d hd => hw d (List.mem_cons_of_mem _ hd)) e2⟩
  | case3 c rest hcw ih =>
    intro w Y hw h
    rw [collapse_cons_nonword (by simpa using hcw)] at h
    cases w with
    | nil => exact List.nil_prefix
    | cons a w' =>
      rw [List.cons_append] at h
      injection h with e1 _
      have := hw a (List.mem_cons_self _ _)
      rw [← e1] at this
      exact absurd this (by decide)

theorem collapse_noTwo : ∀ (l : List Char),
    NoTwoSpaces (collapseNonWord l) := by
  intro l
  induction l using collapseNonWord.induct with
  | case1 =>
    rw [collapse_nil]
    intro hcon
    have := List.eq_nil_of_infix_nil hcon
    cases this
  | case2 c rest hw ih =>
    rw [collapse_cons_word hw]
    intro hcon
    rcases List.infix_cons_iff.mp hcon with hpre | hinf
    · obtain ⟨e1, _⟩ := List.cons_prefix_cons.mp hpre
      rw [← e1] at hw
      exact absurd hw (by decide)
    · exact ih hinf
  | case3 c rest hw ih =>
    rw [collapse_cons_nonword (by simpa using hw)]
    intro hcon
    rcases List.infix_cons_iff.mp hcon with hpre | hinf
    · obtain ⟨_, hpre'⟩ := List.cons_prefix_cons.mp hpre
      obtain ⟨t, ht⟩ := hpre'
      rw [List.cons_append] at ht
      cases hdw : rest.dropWhile (fun x => !isWordChar x) with
      | nil =>
        rw [hdw, collapse_nil] at ht
        cases ht
      | cons e r =>
        have hew : isWordChar e = true := by
          have := dropWhile_head_false hdw
          simpa using this
        rw [hdw, collapse_cons_word hew] at ht
        injection ht with e1 _
        rw [← e1] at hew
        exact absurd hew (by decide)
    · exact ih hinf

theorem collapse_id : ∀ (l : List Char),
    (∀ c ∈ l, isWordChar c = true ∨ c = ' ') → NoTwoSpaces l →
    collapseNonWord l = l := by
  intro l
  induction l using collapseNonWord.induct with
  | case1 =>
    intro _ _
    exact collapse_nil
  | case2 c rest hw ih =>
    intro hchars hN
    rw [collapse_cons_word hw,
      ih (fun d hd => hchars d (List.mem_cons_of_mem _ hd))
        (noTwoSpaces_of_isInfix (List.suffix_cons c rest).isInfix hN)]
  | case3 c rest hw ih =>
    intro hchars hN
    have hcsp : c = ' ' := by
      rcases hchars c (List.mem_cons_self _ _) with hcw | hcsp
      · exact absurd hcw hw
      · exact hcsp
    have hdw : rest.dropWhile (fun x => !isWordChar x) = rest := by
      cases rest with
      | nil => rfl
      | cons d t =>
        rcases hchars d (List.mem_cons_of_mem _ (List.mem_cons_self _ _))
          with hdw | hdsp
        · rw [List.dropWhile_cons, if_neg (by simp [hdw])]
        · exfalso
          apply hN
          refine ⟨[], c :: d :: t |>.drop 2, ?_⟩
          rw [hcsp, hdsp]
          rfl
    rw [hdw] at ih
    rw [collapse_cons_nonword (by simpa using hw), hdw,
      ih (fun d hd => hchars d (List.mem_cons_of_mem _ hd))
        (noTwoSpaces_of_isInfix (List.suffix_cons c rest).isInfix hN), hcsp]

theorem collapse_id_word : ∀ (l : List Char),
    (∀ c ∈ l, isWordChar c = true) → collapseNonWord l = l := by
  intro l hw
  apply collapse_id
  · exact fun c hc => Or.inl (hw c hc)
  · intro hcon
    have := hcon.subset (List.mem_cons_self ' ' [' '])
    rcases hw ' ' this with h
    exact absurd h (by decide)

theorem collapse_httpOk : ∀ (m : List Char), HttpOk m →
    HttpOk (collapseNonWord m) := by
  intro m
  induction m using collapseNonWord.induct with
  | case1 =>
    intro _
    rw [collapse_nil]
    intro c' rest' hs
    cases List.suffix_nil.mp hs
  | case2 c rest hw ih =>
    intro hm
    rw [collapse_cons_word hw]
    intro c' rest' hs
    rcases List.suffix_cons_iff.mp hs with heq | hs
    · injection heq with e1 heq
      by_cases hc' : isPySpace c' = true
      · exact hc'
      · have hc'w : isWordChar c' = true := by
          have hmem : c' ∈ collapseNonWord rest := by
            rw [← heq]
            simp
          rcases collapse_chars rest c' hmem with ⟨h1, _⟩ | h2
          · exact h1
          · exact absurd (h2 ▸ (by decide : isPySpace ' ' = true)) hc'
        have hpre : ['t', 't', 'p', c'] <+: rest := by
          apply collapse_word_isPrefix rest ['t', 't', 'p', c'] rest'
          · intro d hd
            rcases List.mem_cons.mp hd with e | hd
            · rw [e]; decide
            rcases List.mem_cons.mp hd with e | hd
            · rw [e]; decide
            rcases List.mem_cons.mp hd with e | hd
            · rw [e]; decide
            rcases List.mem_cons.mp hd with e | hd
            · rw [e]; exact hc'w
            · cases hd
          · rw [← heq]
            rfl
        obtain ⟨r4, hr4⟩ := hpre
        apply hm c' r4
        have hrw : c :: rest = 'h' :: 't' :: 't' :: 'p' :: c' :: r4 := by
          rw [← e1, ← hr4]
          rfl
        rw [hrw]
    · exact ih (httpOk_of_suffix (List.suffix_cons c rest) hm) c' rest' hs
  | case3 c rest hw ih =>
    intro hm
    rw [collapse_cons_nonword (by simpa using hw)]
    intro c' rest' hs
    rcases List.suffix_cons_iff.mp hs with heq | hs
    · injection heq with e1 _
      exact absurd e1 (by decide)
    · exact ih (httpOk_of_suffix ((List.dropWhile_suffix _).trans
        (List.suffix_cons c rest)) hm) c' rest' hs

theorem goodOut_pipeline (t : List Char) :
    GoodOut (pyStrip (collapseNonWord (stripUrls (stripTicks
      (t.map Char.toLower))))) := by
  refine ⟨?_, ?_, ?_, ?_, ?_⟩
  · intro c hc
    have hc4 := (pyStrip_isInfix _).subset hc
    rcases collapse_chars _ c hc4 with ⟨hw, hc3⟩ | hsp
    · left
      refine ⟨hw, ?_⟩
      have hc2 := stripUrls_subset _ c hc3
      have hc1 := stripTicks_subset _ c hc2
      obtain ⟨d, _, rfl⟩ := List.mem_map.mp hc1
      exact toLower_idem d
    · right
      exact hsp
  · exact noTwoSpaces_of_isInfix (pyStrip_isInfix _) (collapse_noTwo _)
  · exact pyStrip_dropWhile _
  · exact pyStrip_rdropWhile _
  · exact httpOk_of_isInfix (pyStrip_isInfix _)
      (collapse_httpOk _ (stripUrls_httpOk _))

theorem normalizeChars_goodOut (b : List Char) :
    GoodOut (normalizeChars b) :=
  goodOut_pipeline _

theorem intercalate_single (x : List Char) :
    List.intercalate [' '] [x] = x := by
  simp [List.intercalate]

theorem normalizeChars_nil : normalizeChars [] = [] := by
  rw [normalizeChars,
    splitlines_no_break [] (fun c hc => absurd hc (List.not_mem_nil c))]
  simp only [List.isEmpty_nil, if_true, List.map_nil, List.filter_nil]
  rw [show List.intercalate [' '] ([] : List (List Char)) = [] by
    simp [List.intercalate]]
  simp only [List.map_nil]
  rw [stripTicks_nil, stripUrls_nil, collapse_nil]
  rfl

theorem normalizeChars_id (l : List Char) (h : GoodOut l) :
    normalizeChars l = l := by
  obtain ⟨hchars, hN2, hdw, hrdw, hhttp⟩ := h
  cases l with
  | nil => exact normalizeChars_nil
  | cons c0 t0 =>
    have hps : pyStrip (c0 :: t0) = c0 :: t0 := pyStrip_eq_self hdw hrdw
    have hnb : ∀ c ∈ c0 :: t0, isLineBreak c = false := by
      intro c hc
      rcases hchars c hc with ⟨hw, _⟩ | hsp
      · exact word_not_lineBreak c hw
      · rw [hsp]
        decide
    have hsl : splitlines (c0 :: t0) = [c0 :: t0] := by
      rw [splitlines_no_break _ hnb, if_neg (by simp)]
    have hps0 : isPySpace c0 = false := by
      by_cases hp : isPySpace c0 = true
      · exfalso
        rw [List.dropWhile_cons, if_pos hp] at hdw
        have hlen := congrArg List.length hdw
        have hle := (List.dropWhile_suffix (l := t0) isPySpace).length_le
        simp only [List.length_cons] at hlen
        omega
      · simpa using hp
    have hw0 : isWordChar c0 = true := by
      rcases hchars c0 (List.mem_cons_self _ _) with ⟨hw, _⟩ | hsp
      · exact hw
      · rw [hsp] at hps0
        cases hps0
    have hpf : ∀ (a : Char) (w : List Char), a ≠ c0 →
        (a :: w).isPrefixOf (c0 :: t0) = false := by
      intro a w ha
      show (a == c0 && w.isPrefixOf t0) = false
      rw [beq_eq_false_iff_ne.mpr ha, Bool.false_and]
    have hne1 : '<' ≠ c0 := fun he => by
      rw [← he] at hw0
      exact absurd hw0 (by decide)
    have hne2 : '#' ≠ c0 := fun he => by
      rw [← he] at hw0
      exact absurd hw0 (by decide)
    have hne3 : '\x60' ≠ c0 := fun he => by
      rw [← he] at hw0
      exact absurd hw0 (by decide)
    have hcond : (!((c0 :: t0).isEmpty ||
        "<!--".data.isPrefixOf (c0 :: t0) ||
        "###".data.isPrefixOf (c0 :: t0) ||
        "```".data.isPrefixOf (c0 :: t0))) = true := by
      rw [show "<!--".data = '<' :: "!--".data from rfl, hpf '<' _ hne1,
        show "###".data = '#' :: "##".data from rfl, hpf '#' _ hne2,
        show "```".data = '\x60' :: "``".data from rfl, hpf '\x60' _ hne3]
      rfl
    have hmap : (c0 :: t0).map Char.toLower = c0 :: t0 := by
      have hfix : ∀ c ∈ c0 :: t0, Char.toLower c = c := by
        intro c hc
        rcases hchars c hc with ⟨_, hfix⟩ | hsp
        · exact hfix
        · rw [hsp]
          rfl
      rw [List.map_congr_left hfix]
      exact List.map_id' _
    have htick : ¬ '\x60' ∈ c0 :: t0 := by
      intro hmem
      rcases hchars '\x60' hmem with ⟨hw, _⟩ | hsp
      · exact absurd hw (by decide)
      · exact absurd hsp (by decide)
    have hchars' : ∀ c ∈ c0 :: t0, isWordChar c = true ∨ c = ' ' := by
      intro c hc
      rcases hchars c hc with ⟨hw, _⟩ | hsp
      · exact Or.inl hw
      · exact Or.inr hsp
    have hfil : (List.filter (fun line => !(line.isEmpty ||
        "<!--".data.isPrefixOf line || "###".data.isPrefixOf line ||
        "```".data.isPrefixOf line)) [c0 :: t0]) = [c0 :: t0] := by
      simp only [List.filter_cons, List.filter_nil, hcond, if_true]
    rw [normalizeChars, hsl]
    simp only [List.map_cons, List.map_nil]
    rw [hps, hfil, intercalate_single, hmap, stripTicks_id _ htick,
      stripUrls_id _ hhttp, collapse_id _ hchars' hN2, hps]

/-- C7: `normalize` is idempotent: normalizing an already-normalized text
changes nothing. -/
theorem normalize_idem (s : String) : normalize (normalize s) = normalize s :=
  congrArg String.mk
    (normalizeChars_id (normalizeChars s.data) (normalizeChars_goodOut s.data))

/-- C8 (amended): every character of `normalize`'s output is a word
character (letter, digit or underscore) or a space, no two spaces are
adjacent — so every maximal run of non-word characters was collapsed to a
single space — and the output has no leading or trailing whitespace.  (The
original claim said "non-alphanumeric" runs, but the regex `\W+` never
touches underscores.) -/
theorem normalize_word_runs (s : String) :
    (∀ c ∈ (normalize s).data, isWordChar c = true ∨ c = ' ') ∧
    NoTwoSpaces (normalize s).data ∧
    (normalize s).data.dropWhile isPySpace = (normalize s).data ∧
    (normalize s).data.rdropWhile isPySpace = (normalize s).data := by
  obtain ⟨h1, h2, h3, h4, _⟩ := normalizeChars_goodOut s.data
  exact ⟨fun c hc => (h1 c hc).imp (fun h => h.1) id, h2, h3, h4⟩

/-- Concrete evaluation of the normalizer on `"a_b"`. -/
theorem normalize_underscore_eval : normalize "a_b" = "a_b" := by
  rw [normalize]
  have hT : ((List.intercalate [' ']
      (((splitlines "a_b".data).map pyStrip).filter
        (fun line => !(line.isEmpty || "<!--".data.isPrefixOf line ||
          "###".data.isPrefixOf line || "```".data.isPrefixOf line)))).map
      Char.toLower) = ['a', '_', 'b'] := by decide
  rw [normalizeChars, hT, stripTicks_id _ (by decide),
    stripUrls_id_no_h _ (by decide), collapse_id_word _ (by decide)]
  decide

/-- C8 counterexample: `normalize "a_b"` keeps the underscore, a character
that is neither a letter, nor a digit, nor a space, so not every maximal
non-alphanumeric run is replaced by a space. -/
theorem normalize_underscore_counterexample :
    normalize "a_b" = "a_b" ∧ '_' ∈ "a_b".data ∧
    '_'.isAlpha = false ∧ '_'.isDigit = false ∧ '_' ≠ ' ' :=
  ⟨normalize_underscore_eval, by decide, by decide, by decide, by decide⟩

/-- A candidate that fails one of the two cheap filters (same number as
the subject, or title score below 66) leaves the accumulator unchanged and
cannot raise. -/
theorem dupStep_gate_false (ts bs : String → String → ℚ)
    (t : String) (b : Option String) (num : Int) (th : ℚ)
    (acc : List PyIssue × List PyIssue) (r : PyIssue)
    (h : dupGate ts t num r = false) :
    dupStep ts bs t b num th acc r = Except.ok acc := by
  by_cases h1 : r.number.getD 0 = num
  · simp [dupStep, h1]
  · by_cases h2 : ts t (r.title.getD "") < 66
    · simp [dupStep, h1, h2]
    · exfalso
      simp [dupGate, h1, h2] at h

/-- A candidate that reaches the body-scoring step with both bodies
non-null is appended to the list selected by its state exactly when
`dupKeep` holds. -/
theorem dupStep_gate_some (ts bs : String → String → ℚ)
    (t : String) (num : Int) (th : ℚ)
    (acc : List PyIssue × List PyIssue) (r : PyIssue) (sb rb : String)
    (h1 : ¬ r.number.getD 0 = num)
    (h2 : ¬ ts t (r.title.getD "") < 66)
    (hrb : r.bodyGet = some rb) :
    dupStep ts bs t (some sb) num th acc r =
      Except.ok (if dupKeep ts bs t (some sb) num th r then
        (if r.state.getD "" = "open" then (acc.1 ++ [r], acc.2)
         else (acc.1, acc.2 ++ [r]))
      else acc) := by
  by_cases h3 : th ≤ 0.7 * ts t (r.title.getD "") +
      0.3 * bs (normalize sb) (normalize rb)
  · simp [dupStep, dupKeep, dupGate, h1, h2, h3, hrb]
  · simp [dupStep, dupKeep, dupGate, h1, h2, h3, hrb]

/-- A candidate that reaches the body-scoring step while the subject's or
its own body is `null` raises the `AttributeError` of `normalize(None)`. -/
theorem dupStep_gate_null (ts bs : String → String → ℚ)
    (t : String) (b : Option String) (num : Int) (th : ℚ)
    (acc : List PyIssue × List PyIssue) (r : PyIssue)
    (h1 : ¬ r.number.getD 0 = num)
    (h2 : ¬ ts t (r.title.getD "") < 66)
    (hnull : b = none ∨ r.bodyGet = none) :
    dupStep ts bs t b num th acc r = Except.error
      "AttributeError: NoneType object has no attribute splitlines" := by
  rcases hnull with hb | hrb
  · rw [dupStep, if_neg h1, if_neg h2, hb]
  · rw [dupStep, if_neg h1, if_neg h2, hrb]
    cases b <;> rfl

/-- Binding a successful `Except` computation applies the continuation. -/
theorem exceptBind_ok {ε α β : Type} (a : α) (f : α → Except ε β) :
    (Except.ok a : Except ε α) >>= f = f a := rfl

/-- Binding a failed `Except` computation propagates the failure. -/
theorem exceptBind_error {ε α β : Type} (e : ε) (f : α → Except ε β) :
    (Except.error e : Except ε α) >>= f = Except.error e := rfl

/-- When the scanning loop completes without raising, it computes, up to
the initial accumulator, the filters of the kept open-state and kept
non-open-state results, in search order. -/
theorem dupFold_ok (ts bs : String → String → ℚ)
    (t : String) (b : Option String) (num : Int) (th : ℚ) :
    ∀ (results : List PyIssue) (acc : List PyIssue × List PyIssue)
      (o c : List PyIssue),
    results.foldlM (dupStep ts bs t b num th) acc = Except.ok (o, c) →
    o = acc.1 ++ results.filter (fun r => dupKeep ts bs t b num th r &&
        decide (r.state.getD "" = "open")) ∧
    c = acc.2 ++ results.filter (fun r => dupKeep ts bs t b num th r &&
        decide (¬ r.state.getD "" = "open")) := by
  intro results
  induction results with
  | nil =>
    intro acc o c h
    simp only [List.foldlM_nil, pure, Except.pure, Except.ok.injEq] at h
    subst h
    simp
  | cons r rest ih =>
    intro acc o c h
    rw [List.foldlM_cons] at h
    by_cases hg : dupGate ts t num r = true
    · have hg' := hg
      simp only [dupGate, Bool.and_eq_true, decide_eq_true_eq] at hg'
      obtain ⟨h1, h2⟩ := hg'
      cases b with
      | none =>
        rw [dupStep_gate_null ts bs t none num th acc r h1 h2 (Or.inl rfl),
          exceptBind_error] at h
        cases h
      | some sb =>
        cases hrb : r.bodyGet with
        | none =>
          rw [dupStep_gate_null ts bs t (some sb) num th acc r h1 h2
            (Or.inr hrb), exceptBind_error] at h
          cases h
        | some rb =>
          rw [dupStep_gate_some ts bs t num th acc r sb rb h1 h2 hrb,
            exceptBind_ok] at h
          by_cases hk : dupKeep ts bs t (some sb) num th r = true
          · by_cases hs : r.state.getD "" = "open"
            · obtain ⟨ho, hc⟩ := ih _ _ _ h
              simp only [hk, hs, if_true, if_pos] at ho hc
              simp [ho, hc, List.filter_cons, hk, hs]
            · obtain ⟨ho, hc⟩ := ih _ _ _ h
              simp only [hk, hs, if_true, if_neg, if_false] at ho hc
              simp [ho, hc, List.filter_cons, hk, hs]
          · obtain ⟨ho, hc⟩ := ih _ _ _ h
            simp only [hk, if_false] at ho hc
            simp [ho, hc, List.filter_cons, hk]
    · rw [dupStep_gate_false ts bs t b num th acc r
        (Bool.not_eq_true _ ▸ hg), exceptBind_ok] at h
      obtain ⟨ho, hc⟩ := ih _ _ _ h
      have hk : dupKeep ts bs t b num th r = false := by
        rw [dupKeep, Bool.eq_false_iff.mpr hg, Bool.false_and]
      simp [ho, hc, List.filter_cons, hk]

/-- The scanning loop raises exactly when some search result passes the
two cheap filters while the subject's or that result's body is `null`;
whether an earlier candidate already raised does not change the verdict,
only which candidate raises. -/
theorem dupFold_error (ts bs : String → String → ℚ)
    (t : String) (b : Option String) (num : Int) (th : ℚ) :
    ∀ (results : List PyIssue) (acc : List PyIssue × List PyIssue),
    (∃ e, results.foldlM (dupStep ts bs t b num th) acc = Except.error e) ↔
    ∃ r ∈ results, dupGate ts t num r = true ∧
      (b = none ∨ r.bodyGet = none) := by
  intro results
  induction results with
  | nil =>
    intro acc
    simp [List.foldlM_nil, pure, Except.pure]
  | cons r rest ih =>
    intro acc
    rw [List.foldlM_cons]
    by_cases hg : dupGate ts t num r = true
    · have hg' := hg
      simp only [dupGate, Bool.and_eq_true, decide_eq_true_eq] at hg'
      obtain ⟨h1, h2⟩ := hg'
      by_cases hnull : b = none ∨ r.bodyGet = none
      · rw [dupStep_gate_null ts bs t b num th acc r h1 h2 hnull,
          exceptBind_error]
        constructor
        · intro _
          exact ⟨r, List.mem_cons_self _ _, hg, hnull⟩
        · intro _
          exact ⟨_, rfl⟩
      · push_neg at hnull
        obtain ⟨hbne, hrbne⟩ := hnull
        cases b with
        | none => exact absurd rfl hbne
        | some sb =>
          cases hrb : r.bodyGet with
          | none => exact absurd hrb hrbne
          | some rb =>
            rw [dupStep_gate_some ts bs t num th acc r sb rb h1 h2 hrb,
              exceptBind_ok, ih]
            constructor
            · rintro ⟨r', hr', hg2, hnull2⟩
              exact ⟨r', List.mem_cons_of_mem _ hr', hg2, hnull2⟩
            · rintro ⟨r', hr', hg2, hnull2⟩
              rcases List.mem_cons.mp hr' with e | hr'
              · subst e
                rcases hnull2 with hx | hx
                · exact absurd hx hbne
                · exact absurd hx hrbne
              · exact ⟨r', hr', hg2, hnull2⟩
    · rw [dupStep_gate_false ts bs t b num th acc r
        (Bool.not_eq_true _ ▸ hg), exceptBind_ok, ih acc]
      constructor
      · rintro ⟨r', hr', hg2, hnull2⟩
        exact ⟨r', List.mem_cons_of_mem _ hr', hg2, hnull2⟩
      · rintro ⟨r', hr', hg2, hnull2⟩
        rcases List.mem_cons.mp hr' with e | hr'
        · subst e
          exact absurd hg2 hg
        · exact ⟨r', hr', hg2, hnull2⟩

end AutoIssue

namespace AutoIssue

/-- C3: for every issue with a title and a nonzero number, `check_duplicate`
never returns an issue whose number equals the subject's number in either
result list, for any search result set containing the subject, even with
threshold 0. -/
theorem check_duplicate_self_excluded (ts bs : String → String → ℚ)
    (issue : PyIssue) (th : ℚ)
    (results : List PyIssue) (o c : List PyIssue) (r : PyIssue)
    (ht : ¬ issue.title.getD "" = "") (hn : ¬ issue.number.getD 0 = 0)
    (hself : issue ∈ results)
    (hok : check_duplicate ts bs issue th (some results) =
      Except.ok (o, c))
    (hr : r ∈ o ∨ r ∈ c) :
    ¬ r.number.getD 0 = issue.number.getD 0 := by
  rw [check_duplicate] at hok
  simp only [ht, hn, if_false] at hok
  obtain ⟨ho, hc⟩ := dupFold_ok ts bs _ _ _ th results ([], []) o c hok
  simp only [List.nil_append] at ho hc
  intro hnum
  rcases hr with hro | hrc
  · rw [ho] at hro
    have := (List.mem_filter.mp hro).2
    simp only [Bool.and_eq_true, dupKeep, dupGate, decide_eq_true_eq] at this
    exact this.1.1.1 hnum
  · rw [hc] at hrc
    have := (List.mem_filter.mp hrc).2
    simp only [Bool.and_eq_true, dupKeep, dupGate, decide_eq_true_eq] at this
    exact this.1.1.1 hnum

/-- C3 witness: a concrete run containing the subject itself plus one true
duplicate returns only the duplicate, whose number differs from the
subject's. -/
theorem check_duplicate_self_excluded_witness :
    ¬ wCand.number.getD 0 = wIssue.number.getD 0 := by
  refine check_duplicate_self_excluded wTS wBS wIssue 0
    [wIssue, wCand] [wCand] [] wCand ?_ ?_ ?_ ?_ ?_
  · decide
  · decide
  · simp
  · norm_num [check_duplicate, dupStep, wTS, wBS, wIssue, wCand,
      PyIssue.bodyGet, List.foldlM_cons, List.foldlM_nil, exceptBind_ok,
      show ¬ ("App crashes on load" = "") from by decide]
  · simp

end AutoIssue

namespace AutoIssue

/-- C2: a search-result candidate whose title similarity score against the
subject's title is below 66 appears in neither duplicate list returned by
`check_duplicate`, regardless of body similarity and of the threshold. -/
theorem check_duplicate_low_title_excluded (ts bs : String → String → ℚ)
    (issue : PyIssue) (th : ℚ)
    (results : List PyIssue) (o c : List PyIssue) (r : PyIssue)
    (ht : ¬ issue.title.getD "" = "") (hn : ¬ issue.number.getD 0 = 0)
    (hr : r ∈ results)
    (hlow : ts (issue.title.getD "") (r.title.getD "") < 66)
    (hok : check_duplicate ts bs issue th (some results) =
      Except.ok (o, c)) :
    ¬ r ∈ o ∧ ¬ r ∈ c := by
  rw [check_duplicate] at hok
  simp only [ht, hn, if_false] at hok
  obtain ⟨ho, hc⟩ := dupFold_ok ts bs _ _ _ th results ([], []) o c hok
  simp only [List.nil_append] at ho hc
  constructor
  · intro hro
    rw [ho] at hro
    have := (List.mem_filter.mp hro).2
    simp only [Bool.and_eq_true, dupKeep, dupGate, decide_eq_true_eq] at this
    exact this.1.1.2 hlow
  · intro hrc
    rw [hc] at hrc
    have := (List.mem_filter.mp hrc).2
    simp only [Bool.and_eq_true, dupKeep, dupGate, decide_eq_true_eq] at this
    exact this.1.1.2 hlow

/-- C2 witness: with a constant title score of 50, a candidate lands in
neither list even at threshold 0. -/
theorem check_duplicate_low_title_excluded_witness :
    ¬ wCand ∈ ([] : List PyIssue) ∧ ¬ wCand ∈ ([] : List PyIssue) := by
  refine check_duplicate_low_title_excluded wTSlow wBS wIssue 0
    [wCand] [] [] wCand ?_ ?_ ?_ ?_ ?_
  · decide
  · decide
  · simp
  · norm_num [wTSlow]
  · norm_num [check_duplicate, dupStep, wTSlow, wBS, wIssue, wCand,
      PyIssue.bodyGet, List.foldlM_cons, List.foldlM_nil,
      show ¬ ("App crashes on load" = "") from by decide]

/-- C1: a candidate other than the subject whose title score reaches the
floor of 66 is placed in exactly one of the two result lists iff the
weighted score `0.7 * title + 0.3 * body` reaches the threshold, open-state
candidates going to the open list and all others to the closed list. -/
theorem check_duplicate_classification (ts bs : String → String → ℚ)
    (issue : PyIssue) (th : ℚ)
    (results : List PyIssue) (o c : List PyIssue) (r : PyIssue)
    (ht : ¬ issue.title.getD "" = "") (hn : ¬ issue.number.getD 0 = 0)
    (hr : r ∈ results)
    (hne : ¬ r.number.getD 0 = issue.number.getD 0)
    (hts : ¬ ts (issue.title.getD "") (r.title.getD "") < 66)
    (hok : check_duplicate ts bs issue th (some results) =
      Except.ok (o, c)) :
    ((r ∈ o ∨ r ∈ c) ↔
      th ≤ 0.7 * ts (issue.title.getD "") (r.title.getD "") +
        0.3 * bs (normalize (issue.bodyGet.getD ""))
          (normalize (r.bodyGet.getD ""))) ∧
    ¬ (r ∈ o ∧ r ∈ c) ∧
    (r ∈ o → r.state.getD "" = "open") ∧
    (r ∈ c → ¬ r.state.getD "" = "open") := by
  rw [check_duplicate] at hok
  simp only [ht, hn, if_false] at hok
  obtain ⟨ho, hc⟩ := dupFold_ok ts bs _ _ _ th results ([], []) o c hok
  simp only [List.nil_append] at ho hc
  have hmo : r ∈ o ↔ r ∈ results ∧
      (dupKeep ts bs (issue.title.getD "") issue.bodyGet
        (issue.number.getD 0) th r = true ∧ r.state.getD "" = "open") := by
    rw [ho, List.mem_filter]
    simp only [Bool.and_eq_true, decide_eq_true_eq]
  have hmc : r ∈ c ↔ r ∈ results ∧
      (dupKeep ts bs (issue.title.getD "") issue.bodyGet
        (issue.number.getD 0) th r = true ∧ ¬ r.state.getD "" = "open") := by
    rw [hc, List.mem_filter]
    simp only [Bool.and_eq_true, decide_eq_true_eq]
  have hkeep : dupKeep ts bs (issue.title.getD "") issue.bodyGet
      (issue.number.getD 0) th r = true ↔
      th ≤ 0.7 * ts (issue.title.getD "") (r.title.getD "") +
        0.3 * bs (normalize (issue.bodyGet.getD ""))
          (normalize (r.bodyGet.getD "")) := by
    simp only [dupKeep, dupGate, Bool.and_eq_true, decide_eq_true_eq]
    constructor
    · exact fun h => h.2
    · exact fun h => ⟨⟨hne, hts⟩, h⟩
  refine ⟨?_, ?_, ?_, ?_⟩
  · constructor
    · rintro (hro | hrc)
      · exact hkeep.mp (hmo.mp hro).2.1
      · exact hkeep.mp (hmc.mp hrc).2.1
    · intro hth
      by_cases hs : r.state.getD "" = "open"
      · exact Or.inl (hmo.mpr ⟨hr, hkeep.mpr hth, hs⟩)
      · exact Or.inr (hmc.mpr ⟨hr, hkeep.mpr hth, hs⟩)
  · rintro ⟨hro, hrc⟩
    exact (hmc.mp hrc).2.2 (hmo.mp hro).2.2
  · exact fun hro => (hmo.mp hro).2.2
  · exact fun hrc => (hmc.mp hrc).2.2

/-- C1 witness: a concrete open candidate with title score 100 and body
score 50 clears threshold 80 and is placed exactly in the open list. -/
theorem check_duplicate_classification_witness :
    ((wCand ∈ [wCand] ∨ wCand ∈ ([] : List PyIssue)) ↔
      (80 : ℚ) ≤ 0.7 * wTS (wIssue.title.getD "") (wCand.title.getD "") +
        0.3 * wBS (normalize (wIssue.bodyGet.getD ""))
          (normalize (wCand.bodyGet.getD ""))) ∧
    ¬ (wCand ∈ [wCand] ∧ wCand ∈ ([] : List PyIssue)) ∧
    (wCand ∈ [wCand] → wCand.state.getD "" = "open") ∧
    (wCand ∈ ([] : List PyIssue) → ¬ wCand.state.getD "" = "open") := by
  refine check_duplicate_classification wTS wBS wIssue 80
    [wCand] [wCand] [] wCand ?_ ?_ ?_ ?_ ?_ ?_
  · decide
  · decide
  · simp
  · decide
  · norm_num [wTS]
  · norm_num [check_duplicate, dupStep, wTS, wBS, wIssue, wCand,
      PyIssue.bodyGet, List.foldlM_cons, List.foldlM_nil,
      show ¬ ("App crashes on load" = "") from by decide]

/-- C5 counterexample: an issue with a valid title and number but a `null`
body (as the GitHub API sends when a body is empty) makes `check_duplicate`
raise: the body-scoring step calls `normalize(None)`, whose
`AttributeError` sits outside the `try` that only wraps the HTTP request.
So an input condition other than a missing title or number does cause a
raise, and it does not happen before the search: the same issue with a
failed search returns normally. -/
theorem check_duplicate_null_body_counterexample :
    ¬ wNullIssue.title.getD "" = "" ∧ ¬ wNullIssue.number.getD 0 = 0 ∧
    check_duplicate wTS wBS wNullIssue 0 (some [wCand]) =
      Except.error
        "AttributeError: NoneType object has no attribute splitlines" ∧
    check_duplicate wTS wBS wNullIssue 0 none = Except.ok ([], []) := by
  refine ⟨by decide, by decide, ?_, ?_⟩
  · norm_num [check_duplicate, dupStep, wTS, wBS, wNullIssue, wCand,
      PyIssue.bodyGet, List.foldlM_cons, List.foldlM_nil,
      show ¬ ("App crashes on load" = "") from by decide]
  · norm_num [check_duplicate, wNullIssue,
      show ¬ ("App crashes on load" = "") from by decide]

/-- C5 (amended): `check_duplicate` fails iff the subject's title is
missing or empty or its number is missing or zero — those two validation
raises happen before any search, their outcome the same whatever the
search would return — or the scanning loop reaches the body-scoring step
(a returned candidate other than the subject has title score at least 66)
while the subject's or that candidate's body is `null`, in which case
`normalize(None)` raises `AttributeError` after the search.  No other
input condition produces an error. -/
theorem check_duplicate_error_characterization
    (ts bs : String → String → ℚ) (issue : PyIssue) (th : ℚ)
    (sr : Option (List PyIssue)) :
    (∃ e, check_duplicate ts bs issue th sr = Except.error e) ↔
      (issue.title.getD "" = "" ∨ issue.number.getD 0 = 0 ∨
        ∃ results, sr = some results ∧ ∃ r ∈ results,
          dupGate ts (issue.title.getD "") (issue.number.getD 0) r = true ∧
          (issue.bodyGet = none ∨ r.bodyGet = none)) := by
  by_cases ht : issue.title.getD "" = ""
  · simp [check_duplicate, ht]
  · by_cases hn : issue.number.getD 0 = 0
    · simp [check_duplicate, ht, hn]
    · cases sr with
      | none => simp [check_duplicate, ht, hn]
      | some results =>
        rw [check_duplicate]
        simp only [ht, hn, if_false]
        rw [dupFold_error ts bs (issue.title.getD "") issue.bodyGet
          (issue.number.getD 0) th results ([], [])]
        simp [ht, hn]

/-- C6: when the subject passes validation and the search request fails,
`check_duplicate` returns empty open and closed lists instead of
propagating the failure. -/
theorem check_duplicate_search_failure (ts bs : String → String → ℚ)
    (issue : PyIssue) (th : ℚ)
    (ht : ¬ issue.title.getD "" = "") (hn : ¬ issue.number.getD 0 = 0) :
    check_duplicate ts bs issue th none = Except.ok ([], []) := by
  simp [check_duplicate, ht, hn]

/-- C6 witness: the concrete subject with a failed search yields two empty
lists. -/
theorem check_duplicate_search_failure_witness :
    check_duplicate wTS wBS wIssue 80 none =
      Except.ok ([], []) :=
  check_duplicate_search_failure wTS wBS wIssue 80
    (by decide) (by decide)

end AutoIssue

namespace AutoIssue

/-- C4: for an issue whose body is present, `check_template` returns true
iff the body contains the literal `<!-- TEMPLATE` marker or the issue has
at least one label. -/
theorem check_template_iff (issue : PyIssue) (b : String)
    (hb : issue.body = some (some b)) :
    check_template issue = true ↔
      (containsSub "<!-- TEMPLATE".data b.data = true ∨
        ¬ issue.labels.getD [] = []) := by
  cases hl : issue.labels with
  | none =>
    by_cases hm : containsSub "<!-- TEMPLATE".data b.data = true <;>
      simp [check_template, hb, hl, hm]
  | some ls =>
    by_cases hm : containsSub "<!-- TEMPLATE".data b.data = true <;>
      simp [check_template, hb, hl, hm]

/-- C4 witness: a body containing `<!-- TEMPLATE -->` with an empty label
list satisfies the characterization. -/
theorem check_template_iff_witness :
    check_template wTemplIssue = true ↔
      (containsSub "<!-- TEMPLATE".data "Hi <!-- TEMPLATE -->".data = true ∨
        ¬ wTemplIssue.labels.getD [] = []) :=
  check_template_iff wTemplIssue "Hi <!-- TEMPLATE -->" rfl

/-- C10: when the issue's body key is absent or not a string (for example
`null`), the membership test in `check_template` raises, the catch-all
handler fires, and the function returns false even if the issue has
labels. -/
theorem check_template_missing_body (issue : PyIssue)
    (hb : issue.body = none ∨ issue.body = some none) :
    check_template issue = false := by
  rcases hb with hb | hb <;> simp [check_template, hb]

/-- C10 witness: an issue with no body and one label is reported as not
following the template. -/
theorem check_template_missing_body_witness :
    check_template wNoBodyIssue = false :=
  check_template_missing_body wNoBodyIssue (Or.inl rfl)

/-- Taking a prefix is a valid sampler: on a request of at most the population
size from a duplicate-free population it returns the requested number of
distinct elements of the population. -/
theorem takeSample_valid : ∀ (l : List String) (n : ℕ), n ≤ l.length →
    l.Nodup → (takeSample l n).length = n ∧ (takeSample l n).Nodup ∧
      ∀ x ∈ takeSample l n, x ∈ l := by
  intro l n hn hnd
  refine ⟨?_, (l.take_sublist n).nodup hnd,
    fun x hx => (l.take_sublist n).subset hx⟩
  rw [takeSample, List.length_take]
  exact Nat.min_eq_left hn

/-- C9: with a duplicate-free contributor list and a sampler that picks
distinct elements of its population, `check_assignees` returns distinct
logins from the assignable subset; when that subset is larger than `k` it
returns exactly `k` of them, and otherwise exactly the whole subset. -/
theorem check_assignees_spec (sample : List String → ℕ → List String)
    (isAssignable : String → Bool) (contributors : List String) (k : ℕ)
    (hnd : contributors.Nodup) (hk : 0 < k)
    (hsample : ∀ (l : List String) (n : ℕ), n ≤ l.length → l.Nodup →
      (sample l n).length = n ∧ (sample l n).Nodup ∧
        ∀ x ∈ sample l n, x ∈ l) :
    (check_assignees sample isAssignable contributors k).Nodup ∧
    (∀ x ∈ check_assignees sample isAssignable contributors k,
      x ∈ contributors.filter isAssignable) ∧
    (k < (contributors.filter isAssignable).length →
      (check_assignees sample isAssignable contributors k).length = k) ∧
    ((contributors.filter isAssignable).length ≤ k →
      ∀ x, x ∈ check_assignees sample isAssignable contributors k ↔
        x ∈ contributors.filter isAssignable) := by
  by_cases hc : contributors.isEmpty
  · have hnil : contributors = [] := by
      cases contributors with
      | nil => rfl
      | cons a l => simp [List.isEmpty] at hc
    subst hnil
    simp [check_assignees]
  · have hpool : (contributors.filter isAssignable).Nodup := hnd.filter _
    by_cases hlen : (contributors.filter isAssignable).length < k
    · have hres : check_assignees sample isAssignable contributors k =
          contributors.filter isAssignable := by
        simp [check_assignees, hc, hlen]
      rw [hres]
      exact ⟨hpool, fun x hx => hx, fun h => absurd h (by omega),
        fun _ x => Iff.rfl⟩
    · push_neg at hlen
      have hres : check_assignees sample isAssignable contributors k =
          sample (contributors.filter isAssignable) k := by
        simp [check_assignees, hc, Nat.not_lt.mpr hlen]
      obtain ⟨hL, hN, hS⟩ :=
        hsample (contributors.filter isAssignable) k hlen hpool
      rw [hres]
      refine ⟨hN, hS, fun _ => hL, fun hle x => ?_⟩
      have hcard : (contributors.filter isAssignable).toFinset.card ≤
          (sample (contributors.filter isAssignable) k).toFinset.card := by
        rw [List.toFinset_card_of_nodup hN, List.toFinset_card_of_nodup hpool]
        omega
      have hsub : (sample (contributors.filter isAssignable) k).toFinset ⊆
          (contributors.filter isAssignable).toFinset := by
        intro a ha
        exact List.mem_toFinset.mpr (hS a (List.mem_toFinset.mp ha))
      have heq := Finset.eq_of_subset_of_card_le hsub hcard
      constructor
      · exact fun hx => hS x hx
      · intro hx
        have : x ∈ (contributors.filter isAssignable).toFinset :=
          List.mem_toFinset.mpr hx
        rw [← heq] at this
        exact List.mem_toFinset.mp this

/-- C9 witness: three contributors of which two are assignable, with k = 1,
yield one distinct assignable login; the under-supply clause is also
instantiated by the same theorem at k = 1 with a singleton pool elsewhere
in the conjunction. -/
theorem check_assignees_spec_witness :
    (check_assignees takeSample (fun s => s != "bea") ["ann", "bea", "cal"]
      1).Nodup ∧
    (∀ x ∈ check_assignees takeSample (fun s => s != "bea")
      ["ann", "bea", "cal"] 1,
      x ∈ ["ann", "bea", "cal"].filter (fun s => s != "bea")) ∧
    (1 < (["ann", "bea", "cal"].filter (fun s => s != "bea")).length →
      (check_assignees takeSample (fun s => s != "bea") ["ann", "bea", "cal"]
        1).length = 1) ∧
    ((["ann", "bea", "cal"].filter (fun s => s != "bea")).length ≤ 1 →
      ∀ x, x ∈ check_assignees takeSample (fun s => s != "bea")
        ["ann", "bea", "cal"] 1 ↔
        x ∈ ["ann", "bea", "cal"].filter (fun s => s != "bea")) :=
  check_assignees_spec takeSample (fun s => s != "bea") ["ann", "bea", "cal"]
    1 (by decide) (by decide) takeSample_valid

end AutoIssue
